import Mathlib

/-!
# Verification of the aleph publish / putData CLI pipeline

Shallow embedding of the streaming publish pipeline from
`src/client/cli/commands/publish.js` (shown inside `integration-test/ping_test.js`)
and of the `putData` command from `src/client/cli/commands/putData.js`.

The external collaborators (the jq evaluator together with the `JSON.parse`
of its newline-delimited output, the schema validator, and the remote REST
client) are modelled as oracles: inputs arrive as already-parsed
`{wki, obj}` units, validation is a boolean oracle carried in the run
configuration, and the two remote calls are functions of a `RemoteNode`
oracle returning either a result list or an error message.
-/

namespace Aleph

/-- A decoded JSON payload object.  `schemaRef` models the optional
`schema: {"/": ref}` link field a self-describing record carries
(`objectPath.get(obj, 'schema', '/')` reads it); `data` stands for the rest
of the object's content, opaque to the pipeline. -/
structure Obj where
  schemaRef : Option String
  data : String
deriving DecidableEq, Repr

instance : Inhabited Obj := ⟨⟨none, ""⟩⟩

/-- Modelled from the spec: `isSelfDescribingRecord` lives in
`metadata/schema`, which is not among the provided sources.  Per the spec
(§4.3), a payload is already self-describing exactly when it carries a
schema-reference field. -/
def isSelfDescribingRecord (o : Obj) : Bool :=
  o.schemaRef.isSome

/-- One parsed unit of jq output: `JSON.parse(jsonString)` yields
`{wki, obj}` where `wki` may be absent (`undefined`, modelled `none`). -/
structure JqRecord where
  wki : Option String
  obj : Obj
deriving DecidableEq, Repr

/-- The `object` field of a statement: either the self-describing object the
record was used as, the wrapped form `{schema: {"/": ref}, data: obj}`, or —
after the storage rewrite in `publishBatch` — a content address. -/
inductive StmtObject where
  | sdRecord (o : Obj)
  | wrapped (schemaRef : String) (dataObj : Obj)
  | address (hash : String)
deriving DecidableEq, Repr

/-- A draft or stored statement `{object, refs, tags}`. -/
structure Statement where
  object : StmtObject
  refs : List String
  tags : List String
deriving DecidableEq, Repr

/-- The fatal stage ("data-quality") errors thrown inside the stream's
`data` handler. -/
inductive PubError where
  | validationFailed (o : Obj)
  | missingId (o : Obj)
  | schemaMismatch (ref target : String)
deriving DecidableEq, Repr

/-- The configuration surface of one publish run.  `validateOk` is the
external schema-validation oracle (`validate(schema, obj).success`). -/
structure Config where
  batchSize : Nat
  dryRun : Bool
  skipSchemaValidation : Bool
  schemaReference : String
  compound : Option Nat
  validateOk : Obj → Bool

/-- The per-record checks of the `data` handler, in source order:
schema validation (unless skipped), the `wki == null || wki.length < 1`
identifier check, then the self-description check against the run's target
schema reference, producing the statement's initial `object` field. -/
def checkRecord (cfg : Config) (r : JqRecord) : Except PubError StmtObject :=
  if cfg.skipSchemaValidation = false ∧ cfg.validateOk r.obj = false then
    .error (.validationFailed r.obj)
  else if r.wki = none ∨ r.wki = some "" then
    .error (.missingId r.obj)
  else if isSelfDescribingRecord r.obj then
    if r.obj.schemaRef.getD "" ≠ cfg.schemaReference then
      .error (.schemaMismatch (r.obj.schemaRef.getD "") cfg.schemaReference)
    else
      .ok (.sdRecord r.obj)
  else
    .ok (.wrapped cfg.schemaReference r.obj)

/-- The mutable state of `publishStream`: the two parallel accumulation
arrays, the batches already handed to `publishBatch` (in flush order), and
the `{refs, tags}` lines printed in dry-run mode. -/
structure StreamState where
  statementBodies : List Obj
  statements : List Statement
  flushed : List (List Obj × List Statement)
  dryRunLines : List (List String × List String)
deriving DecidableEq, Repr

def initState : StreamState := ⟨[], [], [], []⟩

/-- The Accumulator step: append payload and statement to the two parallel
arrays; once the length reaches `batchSize`, move the two arrays out as a
flushed batch and reset them. -/
def offer (cfg : Config) (obj : Obj) (stmt : Statement) (st : StreamState) :
    StreamState :=
  if cfg.batchSize ≤ (st.statementBodies ++ [obj]).length then
    { st with
      statementBodies := []
      statements := []
      flushed := st.flushed ++
        [(st.statementBodies ++ [obj], st.statements ++ [stmt])] }
  else
    { st with
      statementBodies := st.statementBodies ++ [obj]
      statements := st.statements ++ [stmt] }

/-- One step of the stream's `data` handler: run the checks, then either
print the dry-run `{refs, tags}` line, or build the statement
`{object, refs: [wki], tags: []}` and offer it to the accumulator. -/
def processRecord (cfg : Config) (st : StreamState) (r : JqRecord) :
    Except PubError StreamState :=
  match checkRecord cfg r with
  | .error e => .error e
  | .ok sdObj =>
    if cfg.dryRun then
      .ok { st with dryRunLines := st.dryRunLines ++ [([r.wki.getD ""], [])] }
    else
      .ok (offer cfg r.obj ⟨sdObj, [r.wki.getD ""], []⟩ st)

/-- Drive the `data` handler over the whole input sequence.  A thrown error
stops ingestion immediately (fail-fast); the state reached so far is kept
because batches flushed before the error already started their network
calls. -/
def ingest (cfg : Config) (st : StreamState) :
    List JqRecord → StreamState × Option PubError
  | [] => (st, none)
  | r :: rs =>
    match processRecord cfg st r with
    | .error e => (st, some e)
    | .ok st' => ingest cfg st' rs

/-- The `end` handler's flush of a non-empty remainder. -/
def drain (st : StreamState) : StreamState :=
  if 0 < st.statementBodies.length then
    { st with
      statementBodies := []
      statements := []
      flushed := st.flushed ++ [(st.statementBodies, st.statements)] }
  else st

/-- The remote REST client oracle: `client.putData(...bodies)` and
`client.publish(publishOpts, ...statements)`. -/
structure RemoteNode where
  putData : List Obj → Except String (List String)
  publish : List Statement → Except String (List String)

/-- A network call made by `publishBatch`, recorded with its argument. -/
inductive NetCall where
  | putData (bodies : List Obj)
  | publish (stmts : List Statement)
deriving DecidableEq, Repr

/-- The count-mismatch error message of `publishBatch`. -/
def mismatchMsg (expected received : Nat) : String :=
  "Expected " ++ toString expected ++
    " results from putting data blobs, received " ++ toString received

/-- `statements.map((s, i) => { s.object = bodyHashes[i]; return s })`:
rewrite each statement's `object` to the corresponding content address
(only ever called with `hashes.length = stmts.length`). -/
def rewriteStatements (stmts : List Statement) (hashes : List String) :
    List Statement :=
  (stmts.zip hashes).map fun sh => { sh.1 with object := .address sh.2 }

/-- One printed report entry `{statementId, members}`. -/
structure ReportBody where
  object : Option String
  refs : List String
  tags : List String
deriving DecidableEq, Repr

structure ReportEntry where
  statementId : String
  bodies : List ReportBody
deriving DecidableEq, Repr

/-- `printBatchResults`: for each `i < statementIds.length`, take
`objectRefs = bodyHashes.slice(i, i + compoundSize)` and
`stmts = statements.slice(i, i + compoundSize)` and print
`{statementId: statementIds[i], bodies}` where `bodies[idx]` pairs
`objectRefs[idx]` with `stmts[idx]`'s refs and tags. -/
def printBatchResults (bodyHashes statementIds : List String)
    (statements : List Statement) (compoundSize : Nat) : List ReportEntry :=
  (List.range statementIds.length).map fun i =>
    let objectRefs := (bodyHashes.drop i).take compoundSize
    let stmts := (statements.drop i).take compoundSize
    let bodies := stmts.mapIdx fun idx s =>
      { object := objectRefs.get? idx, refs := s.refs, tags := s.tags : ReportBody }
    { statementId := statementIds.getD i "", bodies := bodies }

/-- `publishOpts.compound || 1`: JavaScript `||` also replaces `0`. -/
def compoundOr1 : Option Nat → Nat
  | some c => if c = 0 then 1 else c
  | none => 1

/-- `publishBatch`: store all bodies in one call, check the returned count,
rewrite the statements' objects to the returned addresses, publish them in
one call, and report.  Returns the network calls made together with the
batch's outcome. -/
def publishBatch (node : RemoteNode) (compound : Option Nat)
    (statementBodies : List Obj) (statements : List Statement) :
    List NetCall × Except String (List ReportEntry) :=
  match node.putData statementBodies with
  | .error e => ([.putData statementBodies], .error e)
  | .ok bodyHashes =>
    if bodyHashes.length ≠ statements.length then
      ([.putData statementBodies],
       .error (mismatchMsg statements.length bodyHashes.length))
    else
      match node.publish (rewriteStatements statements bodyHashes) with
      | .error e =>
        ([.putData statementBodies,
          .publish (rewriteStatements statements bodyHashes)], .error e)
      | .ok statementIds =>
        ([.putData statementBodies,
          .publish (rewriteStatements statements bodyHashes)],
         .ok (printBatchResults bodyHashes statementIds
               (rewriteStatements statements bodyHashes)
               (compoundOr1 compound)))

/-- Run `publishBatch` for every flushed batch, in flush order. -/
def runBatches (node : RemoteNode) (compound : Option Nat)
    (flushed : List (List Obj × List Statement)) :
    List (List NetCall × Except String (List ReportEntry)) :=
  flushed.map fun b => publishBatch node compound b.1 b.2

/-- A line printed by the `Promise.all` join in the `end` handler. -/
inductive LogLine where
  | success
  | publishErrorLine (msg : String)
deriving DecidableEq, Repr

/-- `Promise.all` over the batch outcomes, with batches settling in flush
order: resolves with all results when every batch resolved, otherwise
rejects with the first rejection. -/
def joinAll : List (Except String (List ReportEntry)) →
    Except String (List (List ReportEntry))
  | [] => .ok []
  | .error e :: _ => .error e
  | .ok a :: os => (joinAll os).map fun l => a :: l

/-- The `end` handler's completion log: on join success print the overall
confirmation unless in dry-run mode; on join failure print the error line
with the rejection's message. -/
def completionLog (dryRun : Bool)
    (outcomes : List (Except String (List ReportEntry))) : List LogLine :=
  match joinAll outcomes with
  | .ok _ => if dryRun then [] else [.success]
  | .error e => [.publishErrorLine e]

/-- The observable outcome of one whole publish run. -/
structure RunOutcome where
  fatal : Option PubError
  flushed : List (List Obj × List Statement)
  dryRunLines : List (List String × List String)
  calls : List NetCall
  batchOutcomes : List (Except String (List ReportEntry))
  log : List LogLine
deriving Repr

/-- Ingestion of the whole input, starting from the empty state. -/
def endState (cfg : Config) (inputs : List JqRecord) :
    StreamState × Option PubError :=
  ingest cfg initState inputs

/-- The stream state once the input is exhausted: the `end` handler (and so
the remainder flush) runs only when no fatal error was thrown. -/
def finalStream (cfg : Config) (inputs : List JqRecord) : StreamState :=
  if (endState cfg inputs).2.isSome then (endState cfg inputs).1
  else drain (endState cfg inputs).1

/-- One whole publish run: ingest every record (fail-fast on a data-quality
error), flush the remainder at end-of-input when no error was thrown, run
the already-started batch publications, and — only when `end` fired — print
the completion log from the join of all batch outcomes. -/
def publishRun (cfg : Config) (node : RemoteNode) (inputs : List JqRecord) :
    RunOutcome :=
  { fatal := (endState cfg inputs).2
    flushed := (finalStream cfg inputs).flushed
    dryRunLines := (finalStream cfg inputs).dryRunLines
    calls := ((runBatches node cfg.compound
        (finalStream cfg inputs).flushed).map Prod.fst).flatten
    batchOutcomes := (runBatches node cfg.compound
        (finalStream cfg inputs).flushed).map Prod.snd
    log := if (endState cfg inputs).2.isSome then []
      else completionLog cfg.dryRun ((runBatches node cfg.compound
        (finalStream cfg inputs).flushed).map Prod.snd) }

/-- `putData` command (`putData.js`): accumulate parsed objects, send a
store call each time the buffer reaches `batchSize` and reset it.  The
stream has no `end` handler, so the final buffer is returned unsent. -/
def putDataStep (batchSize : Nat) (st : List (List Obj) × List Obj)
    (obj : Obj) : List (List Obj) × List Obj :=
  if batchSize ≤ (st.2 ++ [obj]).length then (st.1 ++ [st.2 ++ [obj]], [])
  else (st.1, st.2 ++ [obj])

/-- The whole `putData` run: the store calls made (each one batch of
objects), and the leftover buffer never sent. -/
def putDataRun (batchSize : Nat) (inputs : List Obj) :
    List (List Obj) × List Obj :=
  inputs.foldl (putDataStep batchSize) ([], [])

/-! ## Concrete fixtures used by witnesses and counterexamples -/

/-- A payload object with no schema link. -/
def plainObj (s : String) : Obj := ⟨none, s⟩

/-- A record with identifier `w` and plain payload `s`. -/
def plainRec (w s : String) : JqRecord := ⟨some w, plainObj s⟩

/-- A standard configuration: batch size 2, normal mode, validation on,
every payload valid. -/
def cfgStd : Config := ⟨2, false, false, "sref", none, fun _ => true⟩

def cfgB1 : Config := { cfgStd with batchSize := 1 }

def cfgDry : Config := { cfgStd with dryRun := true }

/-- A remote node that stores and publishes everything. -/
def nodeOk : RemoteNode :=
  ⟨fun bodies => .ok (bodies.map fun o => "h-" ++ o.data),
   fun stmts => .ok (stmts.map fun s => "sid-" ++ s.refs.headD "")⟩

/-- A remote node whose store call fails, with a message naming the first
body of the batch. -/
def nodeFail : RemoteNode :=
  ⟨fun bodies => .error ("fail-" ++ (bodies.headD default).data),
   fun _ => .error "pub-fail"⟩

/-- A remote node that always returns exactly one content address. -/
def nodeShort : RemoteNode :=
  ⟨fun _ => .ok ["only"], fun _ => .ok []⟩

/-- A stored statement fixture, as `printBatchResults` receives them. -/
def storedStmt (n : Nat) : Statement :=
  ⟨.address ("h" ++ toString n), ["r" ++ toString n], []⟩

/-! ## Supporting lemmas -/

theorem checkRecord_error_of_empty_id (cfg : Config) (r : JqRecord)
    (hw : r.wki = none ∨ r.wki = some "") :
    checkRecord cfg r = .error (.validationFailed r.obj) ∨
    checkRecord cfg r = .error (.missingId r.obj) := by
  by_cases h1 : cfg.skipSchemaValidation = false ∧ cfg.validateOk r.obj = false
  · exact Or.inl (by rw [checkRecord, if_pos h1])
  · exact Or.inr (by rw [checkRecord, if_neg h1, if_pos hw])

theorem checkRecord_error_of_schema_mismatch (cfg : Config) (r : JqRecord)
    (hsd : isSelfDescribingRecord r.obj = true)
    (hne : r.obj.schemaRef.getD "" ≠ cfg.schemaReference) :
    ∃ e, checkRecord cfg r = .error e := by
  by_cases h1 : cfg.skipSchemaValidation = false ∧ cfg.validateOk r.obj = false
  · exact ⟨_, by rw [checkRecord, if_pos h1]⟩
  by_cases h2 : r.wki = none ∨ r.wki = some ""
  · exact ⟨_, by rw [checkRecord, if_neg h1, if_pos h2]⟩
  · exact ⟨.schemaMismatch (r.obj.schemaRef.getD "") cfg.schemaReference,
      by rw [checkRecord, if_neg h1, if_neg h2, if_pos hsd, if_pos hne]⟩

theorem processRecord_error (cfg : Config) (st : StreamState) (r : JqRecord)
    (e : PubError) (h : checkRecord cfg r = .error e) :
    processRecord cfg st r = .error e := by
  rw [processRecord, h]

theorem ingest_append_ok (cfg : Config) :
    ∀ (pre : List JqRecord) (st stPre : StreamState),
      ingest cfg st pre = (stPre, none) →
      ∀ rest, ingest cfg st (pre ++ rest) = ingest cfg stPre rest := by
  intro pre
  induction pre with
  | nil =>
    intro st stPre h rest
    simp only [ingest] at h
    injection h with h1 h2
    subst h1
    simp
  | cons r rs ih =>
    intro st stPre h rest
    simp only [ingest, List.cons_append] at h ⊢
    cases hpr : processRecord cfg st r with
    | error e => rw [hpr] at h; simp at h
    | ok st1 => rw [hpr] at h; exact ih st1 stPre h rest

theorem publishRun_fatal (cfg : Config) (node : RemoteNode)
    (inputs : List JqRecord) :
    (publishRun cfg node inputs).fatal = (endState cfg inputs).2 := rfl

theorem publishRun_flushed (cfg : Config) (node : RemoteNode)
    (inputs : List JqRecord) :
    (publishRun cfg node inputs).flushed = (finalStream cfg inputs).flushed := rfl

theorem publishRun_dryRunLines (cfg : Config) (node : RemoteNode)
    (inputs : List JqRecord) :
    (publishRun cfg node inputs).dryRunLines
      = (finalStream cfg inputs).dryRunLines := rfl

theorem publishRun_calls (cfg : Config) (node : RemoteNode)
    (inputs : List JqRecord) :
    (publishRun cfg node inputs).calls
      = ((runBatches node cfg.compound
          (finalStream cfg inputs).flushed).map Prod.fst).flatten := rfl

theorem publishRun_batchOutcomes (cfg : Config) (node : RemoteNode)
    (inputs : List JqRecord) :
    (publishRun cfg node inputs).batchOutcomes
      = (runBatches node cfg.compound
          (finalStream cfg inputs).flushed).map Prod.snd := rfl

theorem publishRun_log (cfg : Config) (node : RemoteNode)
    (inputs : List JqRecord) :
    (publishRun cfg node inputs).log
      = (if (endState cfg inputs).2.isSome then []
         else completionLog cfg.dryRun ((runBatches node cfg.compound
           (finalStream cfg inputs).flushed).map Prod.snd)) := rfl

/-- A record failing the `data`-handler checks aborts the run there:
the fatal error is raised, the batches flushed stay exactly those flushed
from the records before it (so its own batch is never handed to
`publishBatch`), and the `end` handler — hence the completion log — never
runs. -/
theorem run_aborts_at (cfg : Config) (node : RemoteNode)
    (pre post : List JqRecord) (r : JqRecord) (stPre : StreamState)
    (e : PubError)
    (hpre : ingest cfg initState pre = (stPre, none))
    (herr : checkRecord cfg r = .error e) :
    (publishRun cfg node (pre ++ r :: post)).fatal = some e ∧
    (publishRun cfg node (pre ++ r :: post)).flushed = stPre.flushed ∧
    (publishRun cfg node (pre ++ r :: post)).log = [] := by
  have hing : ingest cfg initState (pre ++ r :: post) = (stPre, some e) := by
    rw [ingest_append_ok cfg pre initState stPre hpre]
    simp only [ingest]
    rw [processRecord_error cfg stPre r e herr]
  refine ⟨?_, ?_, ?_⟩
  · rw [publishRun_fatal, endState, hing]
  · rw [publishRun_flushed, finalStream, endState, hing]
    simp
  · rw [publishRun_log, endState, hing]
    simp

/-- C5: a record whose identifier extraction yields a missing or empty
string makes the run abort with a data-quality error (the identifier error,
or the validation error thrown even earlier in the handler), and no network
call is made for that record's batch: the flushed batches remain exactly
those of the preceding records, and no completion log is printed. -/
theorem empty_id_aborts_before_flush (cfg : Config) (node : RemoteNode)
    (pre post : List JqRecord) (r : JqRecord) (stPre : StreamState)
    (hw : r.wki = none ∨ r.wki = some "")
    (hpre : ingest cfg initState pre = (stPre, none)) :
    ∃ e, (publishRun cfg node (pre ++ r :: post)).fatal = some e ∧
      (e = PubError.validationFailed r.obj ∨ e = PubError.missingId r.obj) ∧
      (publishRun cfg node (pre ++ r :: post)).flushed = stPre.flushed ∧
      (publishRun cfg node (pre ++ r :: post)).log = [] := by
  rcases checkRecord_error_of_empty_id cfg r hw with h | h
  · obtain ⟨h1, h2, h3⟩ := run_aborts_at cfg node pre post r stPre _ hpre h
    exact ⟨_, h1, Or.inl rfl, h2, h3⟩
  · obtain ⟨h1, h2, h3⟩ := run_aborts_at cfg node pre post r stPre _ hpre h
    exact ⟨_, h1, Or.inr rfl, h2, h3⟩

theorem empty_id_aborts_before_flush_witness :
    ∃ e, (publishRun cfgStd nodeOk
        ([plainRec "w1" "d1"] ++ ⟨some "", plainObj "dx"⟩ :: [])).fatal = some e ∧
      (e = PubError.validationFailed (plainObj "dx") ∨
        e = PubError.missingId (plainObj "dx")) ∧
      (publishRun cfgStd nodeOk
        ([plainRec "w1" "d1"] ++ ⟨some "", plainObj "dx"⟩ :: [])).flushed
        = StreamState.flushed ⟨[plainObj "d1"],
            [⟨.wrapped "sref" (plainObj "d1"), ["w1"], []⟩], [], []⟩ ∧
      (publishRun cfgStd nodeOk
        ([plainRec "w1" "d1"] ++ ⟨some "", plainObj "dx"⟩ :: [])).log = [] :=
  empty_id_aborts_before_flush cfgStd nodeOk [plainRec "w1" "d1"] []
    ⟨some "", plainObj "dx"⟩
    ⟨[plainObj "d1"], [⟨.wrapped "sref" (plainObj "d1"), ["w1"], []⟩], [], []⟩
    (Or.inr rfl) (by decide)

/-- C6: an already-self-describing record whose carried schema reference
differs from the run's target schema reference makes the run abort with a
fatal stage error, and the record is neither stored nor published: the
flushed batches remain exactly those of the preceding records and the
completion log never prints. -/
theorem schema_mismatch_aborts_before_flush (cfg : Config)
    (node : RemoteNode) (pre post : List JqRecord) (r : JqRecord)
    (stPre : StreamState)
    (hsd : isSelfDescribingRecord r.obj = true)
    (hne : r.obj.schemaRef.getD "" ≠ cfg.schemaReference)
    (hpre : ingest cfg initState pre = (stPre, none)) :
    ∃ e, (publishRun cfg node (pre ++ r :: post)).fatal = some e ∧
      (publishRun cfg node (pre ++ r :: post)).flushed = stPre.flushed ∧
      (publishRun cfg node (pre ++ r :: post)).log = [] := by
  obtain ⟨e, h⟩ := checkRecord_error_of_schema_mismatch cfg r hsd hne
  obtain ⟨h1, h2, h3⟩ := run_aborts_at cfg node pre post r stPre e hpre h
  exact ⟨e, h1, h2, h3⟩

theorem schema_mismatch_aborts_before_flush_witness :
    ∃ e, (publishRun cfgStd nodeOk
        ([] ++ ⟨some "w2", Obj.mk (some "other") "d2"⟩ :: [])).fatal = some e ∧
      (publishRun cfgStd nodeOk
        ([] ++ ⟨some "w2", Obj.mk (some "other") "d2"⟩ :: [])).flushed
        = StreamState.flushed initState ∧
      (publishRun cfgStd nodeOk
        ([] ++ ⟨some "w2", Obj.mk (some "other") "d2"⟩ :: [])).log = [] :=
  schema_mismatch_aborts_before_flush cfgStd nodeOk [] []
    ⟨some "w2", Obj.mk (some "other") "d2"⟩ initState
    (by decide) (by decide) rfl

/-- C4: when the store call returns a number of content addresses different
from the batch size, `publishBatch` fails with the message naming the
expected and received counts, and the publish call is never made: the only
network call recorded is the store call itself. -/
theorem putData_count_mismatch_no_publish (node : RemoteNode)
    (compound : Option Nat) (bodies : List Obj) (stmts : List Statement)
    (hashes : List String)
    (hput : node.putData bodies = .ok hashes)
    (hne : hashes.length ≠ stmts.length) :
    publishBatch node compound bodies stmts =
      ([.putData bodies], .error (mismatchMsg stmts.length hashes.length)) := by
  unfold publishBatch
  rw [hput]
  simp [hne]

theorem putData_count_mismatch_no_publish_witness :
    publishBatch nodeShort none [plainObj "d1", plainObj "d2"]
        [storedStmt 1, storedStmt 2] =
      ([.putData [plainObj "d1", plainObj "d2"]],
       .error (mismatchMsg 2 1)) :=
  putData_count_mismatch_no_publish nodeShort none
    [plainObj "d1", plainObj "d2"] [storedStmt 1, storedStmt 2]
    ["only"] rfl (by decide)

/-- C1: the reporter emits one entry per returned statement id, but the
entry at group index `g` slices `bodyHashes[g : g + compoundSize]` instead
of `bodyHashes[g*compoundSize : g*compoundSize + compoundSize]`: with four
addresses and compound size 2, the second group reports addresses
`b` and `c` where the claim requires `c` and `d`. -/
theorem printBatchResults_overlapping_slices :
    (printBatchResults ["a", "b", "c", "d"] ["s0", "s1"]
        [storedStmt 0, storedStmt 1, storedStmt 2, storedStmt 3] 2).map
        (fun en => en.bodies.map ReportBody.object) =
      [[some "a", some "b"], [some "b", some "c"]] ∧
    [[some "a", some "b"], [some "b", some "c"]] ≠
      [[some "a", some "b"], [some "c", some "d"]] :=
  ⟨rfl, by decide⟩

/-! ## Accumulator invariants -/

theorem offer_quantity (cfg : Config) (obj : Obj) (stmt : Statement)
    (st : StreamState) :
    ((offer cfg obj stmt st).flushed.map Prod.fst).flatten
        ++ (offer cfg obj stmt st).statementBodies
      = (st.flushed.map Prod.fst).flatten ++ st.statementBodies ++ [obj] := by
  unfold offer
  split <;> simp

theorem offer_lt (cfg : Config) (obj : Obj) (stmt : Statement)
    (st : StreamState) (hb : 1 ≤ cfg.batchSize) :
    (offer cfg obj stmt st).statementBodies.length < cfg.batchSize := by
  unfold offer
  split
  next h => simpa using hb
  next h => simpa using Nat.lt_of_not_le h

theorem offer_full (cfg : Config) (obj : Obj) (stmt : Statement)
    (st : StreamState)
    (hlen : st.statementBodies.length < cfg.batchSize)
    (hfull : ∀ b ∈ st.flushed, b.1.length = cfg.batchSize) :
    ∀ b ∈ (offer cfg obj stmt st).flushed, b.1.length = cfg.batchSize := by
  unfold offer
  split
  next h =>
    intro b hb
    simp only [List.mem_append, List.mem_singleton] at hb
    rcases hb with hb | hb
    · exact hfull b hb
    · subst hb
      simp only [List.length_append, List.length_singleton]
      simp only [List.length_append, List.length_singleton] at h
      omega
  next h => exact hfull

/-- Ingestion invariant of the Accumulator in normal mode: along any
error-free run, the concatenation of flushed payload batches followed by
the current buffer equals the payloads seen so far, the buffer stays below
capacity, and every flushed batch is exactly full. -/
theorem ingest_batching (cfg : Config) (hdry : cfg.dryRun = false)
    (hb : 1 ≤ cfg.batchSize) :
    ∀ (inputs : List JqRecord) (st st' : StreamState),
      ingest cfg st inputs = (st', none) →
      st.statementBodies.length < cfg.batchSize →
      (∀ b ∈ st.flushed, b.1.length = cfg.batchSize) →
      (((st'.flushed.map Prod.fst).flatten ++ st'.statementBodies
         = (st.flushed.map Prod.fst).flatten ++ st.statementBodies
             ++ inputs.map JqRecord.obj) ∧
       st'.statementBodies.length < cfg.batchSize ∧
       (∀ b ∈ st'.flushed, b.1.length = cfg.batchSize)) := by
  intro inputs
  induction inputs with
  | nil =>
    intro st st' h hlen hfull
    simp only [ingest] at h
    injection h with h1 _
    subst h1
    exact ⟨by simp, hlen, hfull⟩
  | cons r rs ih =>
    intro st st' h hlen hfull
    simp only [ingest] at h
    cases hpr : processRecord cfg st r with
    | error e => rw [hpr] at h; simp at h
    | ok st1 =>
      rw [hpr] at h
      unfold processRecord at hpr
      cases hc : checkRecord cfg r with
      | error e => rw [hc] at hpr; simp at hpr
      | ok sdObj =>
        rw [hc] at hpr
        simp only [hdry, Bool.false_eq_true, if_false, Except.ok.injEq] at hpr
        subst hpr
        obtain ⟨hq, hlen', hfull'⟩ := ih _ st' h
          (offer_lt cfg r.obj _ st hb) (offer_full cfg r.obj _ st hlen hfull)
        refine ⟨?_, hlen', hfull'⟩
        rw [hq, offer_quantity]
        simp

/-- C3 counterexample: the claim quantifies over every run, but in dry-run
mode a validated record is appended to no batch at all, and in a normal
run aborted by a later bad record the first record's partial batch is never
flushed; in both cases the concatenation of flushed payloads differs from
the validated input sequence. -/
theorem flush_concat_counterexample :
    ((publishRun cfgDry nodeOk [plainRec "w1" "d1"]).flushed.map
        Prod.fst).flatten ≠ [plainRec "w1" "d1"].map JqRecord.obj ∧
    ((publishRun cfgStd nodeOk
        [plainRec "w1" "d1", ⟨some "", plainObj "dx"⟩]).flushed.map
        Prod.fst).flatten ≠ [plainObj "d1"] := by
  decide

/-- C3 (amended): in every normal-mode run that reaches end-of-input
without a fatal stage error (with `batchSize ≥ 1`), concatenating the
flushed batches' payload sequences in flush order equals the validated
input sequence in original order; every flushed batch is non-empty and at
most `batchSize` long, and every flushed batch except possibly the last is
exactly full, the last being the end-of-input remainder flush. -/
theorem flush_concat_eq_input (cfg : Config) (node : RemoteNode)
    (inputs : List JqRecord)
    (hdry : cfg.dryRun = false) (hb : 1 ≤ cfg.batchSize)
    (hfatal : (publishRun cfg node inputs).fatal = none) :
    (((publishRun cfg node inputs).flushed.map Prod.fst).flatten
       = inputs.map JqRecord.obj) ∧
    (∀ b ∈ (publishRun cfg node inputs).flushed,
       0 < b.1.length ∧ b.1.length ≤ cfg.batchSize) ∧
    (∀ b ∈ (publishRun cfg node inputs).flushed.dropLast,
       b.1.length = cfg.batchSize) := by
  rw [publishRun_fatal] at hfatal
  rw [publishRun_flushed]
  have hing : ingest cfg initState inputs
      = ((endState cfg inputs).1, none) := by
    rw [← hfatal]
    exact Prod.mk.eta.symm
  obtain ⟨hq, hlen, hfull⟩ := ingest_batching cfg hdry hb inputs initState
    (endState cfg inputs).1 hing hb (by simp [initState])
  simp only [initState, List.map_nil, List.flatten_nil, List.nil_append] at hq
  have hfin : finalStream cfg inputs = drain (endState cfg inputs).1 := by
    rw [finalStream, hfatal]
    simp
  rw [hfin]
  unfold drain
  split
  next hrem =>
    refine ⟨?_, ?_, ?_⟩
    · simp only [List.map_append, List.flatten_append]
      simpa using hq
    · intro b hbm
      simp only [List.mem_append, List.mem_singleton] at hbm
      rcases hbm with hbm | hbm
      · have := hfull b hbm
        exact ⟨by omega, by omega⟩
      · subst hbm
        exact ⟨hrem, Nat.le_of_lt hlen⟩
    · intro b hbm
      simp only [List.dropLast_concat] at hbm
      exact hfull b hbm
  next hrem =>
    have hempty : (endState cfg inputs).1.statementBodies = [] :=
      List.length_eq_zero.mp (by omega)
    refine ⟨?_, ?_, ?_⟩
    · rw [hempty] at hq
      simpa using hq
    · intro b hbm
      have := hfull b hbm
      exact ⟨by omega, by omega⟩
    · intro b hbm
      exact hfull b ((List.dropLast_sublist _).mem hbm)

/-! ## Dry-run behaviour -/

/-- In dry-run mode the `data` handler only appends a `{refs, tags}` line:
the accumulation arrays and the flushed batches never change, and on an
error-free run exactly one line is appended per input record. -/
theorem ingest_dryRun (cfg : Config) (hdry : cfg.dryRun = true) :
    ∀ (inputs : List JqRecord) (st : StreamState),
      ((ingest cfg st inputs).1.statementBodies = st.statementBodies ∧
       (ingest cfg st inputs).1.flushed = st.flushed) ∧
      ((ingest cfg st inputs).2 = none →
        (ingest cfg st inputs).1.dryRunLines.length
          = st.dryRunLines.length + inputs.length) := by
  intro inputs
  induction inputs with
  | nil =>
    intro st
    simp [ingest]
  | cons r rs ih =>
    intro st
    simp only [ingest]
    cases hpr : processRecord cfg st r with
    | error e => simp
    | ok st1 =>
      unfold processRecord at hpr
      cases hc : checkRecord cfg r with
      | error e => rw [hc] at hpr; simp at hpr
      | ok sdObj =>
        rw [hc] at hpr
        simp only [hdry, if_true, Except.ok.injEq] at hpr
        subst hpr
        obtain ⟨⟨hb1, hf1⟩, hl1⟩ :=
          ih { st with dryRunLines := st.dryRunLines ++ [([r.wki.getD ""], [])] }
        refine ⟨⟨hb1, hf1⟩, ?_⟩
        intro hnone
        have hlen := hl1 hnone
        simp only [List.length_append, List.length_singleton] at hlen
        simp only [List.length_cons]
        omega

/-- C7: in dry-run mode no store call and no publish call is ever made
(no batch is even flushed), and an error-free run prints exactly one
`{refs, tags}` line per input record. -/
theorem dry_run_no_network_one_line_per_record (cfg : Config)
    (node : RemoteNode) (inputs : List JqRecord)
    (hdry : cfg.dryRun = true) :
    (publishRun cfg node inputs).calls = [] ∧
    (publishRun cfg node inputs).batchOutcomes = [] ∧
    ((publishRun cfg node inputs).fatal = none →
      (publishRun cfg node inputs).dryRunLines.length = inputs.length) := by
  obtain ⟨⟨hb, hf⟩, hl⟩ := ingest_dryRun cfg hdry inputs initState
  have hbodies : (endState cfg inputs).1.statementBodies = [] := hb
  have hfs : finalStream cfg inputs = (endState cfg inputs).1 := by
    rw [finalStream]
    split
    · rfl
    · have hno : ¬ 0 < (endState cfg inputs).1.statementBodies.length := by
        rw [hbodies]
        simp
      rw [drain, if_neg hno]
  have hflush : (finalStream cfg inputs).flushed = [] := by
    rw [hfs]
    exact hf
  refine ⟨?_, ?_, ?_⟩
  · rw [publishRun_calls, hflush]
    simp [runBatches]
  · rw [publishRun_batchOutcomes, hflush]
    simp [runBatches]
  · intro hnone
    rw [publishRun_dryRunLines, hfs]
    rw [publishRun_fatal] at hnone
    simpa [initState] using hl hnone

theorem dry_run_no_network_one_line_per_record_witness :
    (publishRun cfgDry nodeOk [plainRec "w1" "d1", plainRec "w2" "d2"]).calls
        = [] ∧
    (publishRun cfgDry nodeOk
        [plainRec "w1" "d1", plainRec "w2" "d2"]).batchOutcomes = [] ∧
    ((publishRun cfgDry nodeOk
        [plainRec "w1" "d1", plainRec "w2" "d2"]).fatal = none →
      (publishRun cfgDry nodeOk
        [plainRec "w1" "d1", plainRec "w2" "d2"]).dryRunLines.length = 2) :=
  dry_run_no_network_one_line_per_record cfgDry nodeOk
    [plainRec "w1" "d1", plainRec "w2" "d2"] rfl

/-! ## The completion join -/

def exceptOk {ε α : Type _} : Except ε α → Bool
  | .ok _ => true
  | .error _ => false

/-- `Promise.all` resolves exactly when every promise of the list does. -/
theorem joinAll_ok_iff (os : List (Except String (List ReportEntry))) :
    (∃ l, joinAll os = .ok l) ↔ ∀ o ∈ os, exceptOk o = true := by
  induction os with
  | nil => simp [joinAll]
  | cons o os ih =>
    constructor
    · rintro ⟨l, hl⟩ o' ho'
      cases o with
      | error e => exact absurd hl (by rw [joinAll]; intro h; cases h)
      | ok a =>
        rw [joinAll] at hl
        cases hj : joinAll os with
        | error e => rw [hj] at hl; cases hl
        | ok l' =>
          rcases List.mem_cons.mp ho' with h | h
          · subst h; rfl
          · exact ih.mp ⟨l', hj⟩ o' h
    · intro hall
      cases o with
      | error e =>
        have := hall (.error e) (List.mem_cons_self _ _)
        simp [exceptOk] at this
      | ok a =>
        obtain ⟨l, hl⟩ := ih.mpr fun o ho => hall o (List.mem_cons_of_mem _ ho)
        exact ⟨a :: l, by rw [joinAll, hl]; rfl⟩

/-- The first rejection of the list is what `Promise.all` rejects with. -/
def firstBatchError : List (Except String (List ReportEntry)) → Option String
  | [] => none
  | .error e :: _ => some e
  | .ok _ :: os => firstBatchError os

theorem joinAll_error_iff (os : List (Except String (List ReportEntry)))
    (e : String) :
    joinAll os = .error e ↔ firstBatchError os = some e := by
  induction os with
  | nil => simp [joinAll, firstBatchError]
  | cons o os ih =>
    cases o with
    | error e1 => simp [joinAll, firstBatchError]
    | ok a =>
      rw [joinAll, firstBatchError, ← ih]
      cases hj : joinAll os with
      | error e1 => exact Iff.rfl
      | ok l =>
        constructor
        · intro h; exact Except.noConfusion h
        · intro h; exact Except.noConfusion h

/-- C8: the overall success line appears in the run's log exactly when the
run reached end-of-input with no fatal error, is not a dry run, and every
flushed batch's publication settled successfully — never merely because
end-of-input was reached. -/
theorem success_only_if_all_batches_ok (cfg : Config) (node : RemoteNode)
    (inputs : List JqRecord) :
    LogLine.success ∈ (publishRun cfg node inputs).log ↔
      ((publishRun cfg node inputs).fatal = none ∧ cfg.dryRun = false ∧
       ∀ o ∈ (publishRun cfg node inputs).batchOutcomes, exceptOk o = true) := by
  rw [publishRun_log, publishRun_fatal, publishRun_batchOutcomes]
  cases hf : (endState cfg inputs).2 with
  | some e => simp [hf]
  | none =>
    simp only [hf, Option.isSome_none, Bool.false_eq_true, if_false]
    rw [completionLog]
    cases hj : joinAll ((runBatches node cfg.compound
        (finalStream cfg inputs).flushed).map Prod.snd) with
    | ok l =>
      have hall := (joinAll_ok_iff _).mp ⟨l, hj⟩
      cases hdr : cfg.dryRun with
      | false =>
        constructor
        · intro _
          exact ⟨by simp, rfl, hall⟩
        · intro _
          simp
      | true =>
        constructor
        · intro hmem
          simp at hmem
        · rintro ⟨-, hdr', -⟩
          cases hdr'
    | error e =>
      constructor
      · intro hmem
        simp at hmem
      · rintro ⟨-, -, hall⟩
        obtain ⟨l, hok⟩ := (joinAll_ok_iff _).mpr hall
        rw [hj] at hok
        cases hok

theorem success_only_if_all_batches_ok_witness :
    LogLine.success ∈
      (publishRun cfgStd nodeOk [plainRec "w1" "d1", plainRec "w2" "d2",
        plainRec "w3" "d3"]).log :=
  (success_only_if_all_batches_ok cfgStd nodeOk
    [plainRec "w1" "d1", plainRec "w2" "d2", plainRec "w3" "d3"]).mpr
    ⟨rfl, rfl, by decide⟩

/-! ## Batch error propagation -/

/-- C2 counterexample: with two batches whose store calls both fail, the
run's error log carries only the first batch's message; the second batch's
error is never logged, refuting that all batch errors accumulate into the
per-run error log. -/
theorem batch_errors_not_accumulated :
    (publishRun cfgB1 nodeFail
        [plainRec "w1" "d1", plainRec "w2" "d2"]).batchOutcomes
      = [.error "fail-d1", .error "fail-d2"] ∧
    (publishRun cfgB1 nodeFail [plainRec "w1" "d1", plainRec "w2" "d2"]).log
      = [.publishErrorLine "fail-d1"] :=
  ⟨rfl, rfl⟩

/-- C2 (amended): a batch failure is isolated — ingestion and the flushing
of every batch are unchanged whatever the remote node answers, and every
flushed batch still gets its own outcome — but the per-run error handler
prints exactly one line, carrying the first settled batch error's message;
later batch errors are not separately logged. -/
theorem batch_error_isolated_first_logged (cfg : Config)
    (node node' : RemoteNode) (inputs : List JqRecord) (e : String)
    (hf : (publishRun cfg node inputs).fatal = none)
    (he : firstBatchError (publishRun cfg node inputs).batchOutcomes
      = some e) :
    (publishRun cfg node inputs).fatal = (publishRun cfg node' inputs).fatal ∧
    (publishRun cfg node inputs).flushed
      = (publishRun cfg node' inputs).flushed ∧
    (publishRun cfg node inputs).batchOutcomes.length
      = (publishRun cfg node inputs).flushed.length ∧
    (publishRun cfg node inputs).log = [.publishErrorLine e] := by
  refine ⟨rfl, rfl, ?_, ?_⟩
  · rw [publishRun_batchOutcomes, publishRun_flushed, runBatches]
    simp
  · rw [publishRun_batchOutcomes] at he
    rw [publishRun_fatal] at hf
    rw [publishRun_log, hf]
    simp only [Option.isSome_none, Bool.false_eq_true, if_false]
    rw [completionLog, (joinAll_error_iff _ e).mpr he]

theorem batch_error_isolated_first_logged_witness :
    (publishRun cfgB1 nodeFail [plainRec "w1" "d1", plainRec "w2" "d2"]).fatal
      = (publishRun cfgB1 nodeOk
          [plainRec "w1" "d1", plainRec "w2" "d2"]).fatal ∧
    (publishRun cfgB1 nodeFail
        [plainRec "w1" "d1", plainRec "w2" "d2"]).flushed
      = (publishRun cfgB1 nodeOk
          [plainRec "w1" "d1", plainRec "w2" "d2"]).flushed ∧
    (publishRun cfgB1 nodeFail
        [plainRec "w1" "d1", plainRec "w2" "d2"]).batchOutcomes.length
      = (publishRun cfgB1 nodeFail
          [plainRec "w1" "d1", plainRec "w2" "d2"]).flushed.length ∧
    (publishRun cfgB1 nodeFail [plainRec "w1" "d1", plainRec "w2" "d2"]).log
      = [.publishErrorLine "fail-d1"] :=
  batch_error_isolated_first_logged cfgB1 nodeFail nodeOk
    [plainRec "w1" "d1", plainRec "w2" "d2"] "fail-d1" rfl rfl

/-! ## The putData command -/

/-- Invariant of the `putData` accumulation loop: starting from a buffer
below capacity and only-full sent batches, the loop preserves both, loses
no object (sent batches then buffer reproduce the input seen so far), and
leaves `(buf.length + inputs.length) % batchSize` objects in the buffer. -/
theorem putDataStep_inv (k : Nat) (hk : 1 ≤ k) :
    ∀ (inputs : List Obj) (sent : List (List Obj)) (buf : List Obj),
      buf.length < k →
      (∀ b ∈ sent, b.length = k) →
      ((inputs.foldl (putDataStep k) (sent, buf)).1.flatten
          ++ (inputs.foldl (putDataStep k) (sent, buf)).2
        = sent.flatten ++ buf ++ inputs) ∧
      (∀ b ∈ (inputs.foldl (putDataStep k) (sent, buf)).1, b.length = k) ∧
      (inputs.foldl (putDataStep k) (sent, buf)).2.length
        = (buf.length + inputs.length) % k := by
  intro inputs
  induction inputs with
  | nil =>
    intro sent buf hlen hfull
    simpa [Nat.mod_eq_of_lt hlen] using hfull
  | cons o os ih =>
    intro sent buf hlen hfull
    simp only [List.foldl_cons]
    by_cases hc : k ≤ (buf ++ [o]).length
    · have hstep : putDataStep k (sent, buf) o = (sent ++ [buf ++ [o]], []) := by
        rw [putDataStep, if_pos hc]
      rw [hstep]
      have hbk : buf.length + 1 = k := by
        simp only [List.length_append, List.length_singleton] at hc
        omega
      have hfull' : ∀ b ∈ sent ++ [buf ++ [o]], b.length = k := by
        intro b hb
        rcases List.mem_append.mp hb with hb | hb
        · exact hfull b hb
        · rw [List.mem_singleton.mp hb]
          simp only [List.length_append, List.length_singleton]
          omega
      obtain ⟨h1, h2, h3⟩ := ih (sent ++ [buf ++ [o]]) []
        (by simp only [List.length_nil]; omega) hfull'
      refine ⟨?_, h2, ?_⟩
      · rw [h1]
        simp
      · simp only [List.length_cons]
        rw [h3]
        simp only [List.length_nil, Nat.zero_add]
        have harg : buf.length + (os.length + 1) = k + os.length := by omega
        rw [harg, Nat.add_mod_left]
    · have hstep : putDataStep k (sent, buf) o = (sent, buf ++ [o]) := by
        rw [putDataStep, if_neg hc]
      rw [hstep]
      have hlt : (buf ++ [o]).length < k := Nat.lt_of_not_le hc
      obtain ⟨h1, h2, h3⟩ := ih sent (buf ++ [o]) hlt hfull
      refine ⟨?_, h2, ?_⟩
      · rw [h1]
        simp
      · simp only [List.length_cons]
        rw [h3]
        simp only [List.length_append, List.length_singleton]
        have harg : buf.length + 1 + os.length
            = buf.length + (os.length + 1) := by omega
        rw [harg]

/-- C9: in the `putData` command, a store call is triggered only when the
buffer reaches `batchSize` (every sent batch is exactly full), and there is
no end-of-input flush: when the record count is not a multiple of
`batchSize`, the leftover records sit unsent in the buffer, so the objects
sent to the remote store are a proper prefix of the input. -/
theorem putData_no_remainder_flush (k : Nat) (inputs : List Obj)
    (hk : 1 ≤ k) (hnd : inputs.length % k ≠ 0) :
    ((putDataRun k inputs).1.flatten ++ (putDataRun k inputs).2 = inputs) ∧
    (∀ b ∈ (putDataRun k inputs).1, b.length = k) ∧
    (putDataRun k inputs).2 ≠ [] ∧
    (putDataRun k inputs).1.flatten ≠ inputs := by
  simp only [putDataRun]
  obtain ⟨h1, h2, h3⟩ := putDataStep_inv k hk inputs [] []
    (by simp only [List.length_nil]; omega) (by simp)
  simp only [List.flatten_nil, List.nil_append, List.length_nil,
    Nat.zero_add] at h1 h3
  have hrem : (List.foldl (putDataStep k) ([], []) inputs).2 ≠ [] := by
    intro hnil
    rw [hnil] at h3
    simp only [List.length_nil] at h3
    exact hnd h3.symm
  refine ⟨h1, h2, hrem, ?_⟩
  intro heq
  apply hrem
  rw [heq] at h1
  have hlen := congrArg List.length h1
  simp only [List.length_append] at hlen
  exact List.length_eq_zero.mp (by omega)

/-! ## Tags are always empty -/

/-- Every statement held by the accumulator or already flushed carries an
empty tags list. -/
abbrev TagsOk (st : StreamState) : Prop :=
  (∀ b ∈ st.flushed, ∀ s ∈ b.2, s.tags = ([] : List String)) ∧
  (∀ s ∈ st.statements, s.tags = ([] : List String))

theorem offer_tagsOk (cfg : Config) (obj : Obj) (stmt : Statement)
    (st : StreamState) (hstmt : stmt.tags = []) (h : TagsOk st) :
    TagsOk (offer cfg obj stmt st) := by
  obtain ⟨hf, hs⟩ := h
  unfold offer
  split
  next =>
    refine ⟨?_, ?_⟩
    · intro b hb s hsm
      simp only [List.mem_append, List.mem_singleton] at hb
      rcases hb with hb | hb
      · exact hf b hb s hsm
      · subst hb
        rcases List.mem_append.mp hsm with hsm | hsm
        · exact hs s hsm
        · rw [List.mem_singleton.mp hsm]
          exact hstmt
    · intro s hsm
      exact absurd hsm (List.not_mem_nil s)
  next =>
    refine ⟨hf, ?_⟩
    intro s hsm
    rcases List.mem_append.mp hsm with hsm | hsm
    · exact hs s hsm
    · rw [List.mem_singleton.mp hsm]
      exact hstmt

theorem ingest_tagsOk (cfg : Config) :
    ∀ (inputs : List JqRecord) (st : StreamState),
      TagsOk st → TagsOk (ingest cfg st inputs).1 := by
  intro inputs
  induction inputs with
  | nil =>
    intro st h
    exact h
  | cons r rs ih =>
    intro st h
    simp only [ingest]
    cases hpr : processRecord cfg st r with
    | error e => exact h
    | ok st1 =>
      apply ih
      unfold processRecord at hpr
      cases hc : checkRecord cfg r with
      | error e => rw [hc] at hpr; simp at hpr
      | ok sdObj =>
        rw [hc] at hpr
        cases hd : cfg.dryRun with
        | true =>
          simp only [hd, if_true, Except.ok.injEq] at hpr
          subst hpr
          exact h
        | false =>
          simp only [hd, Bool.false_eq_true, if_false,
            Except.ok.injEq] at hpr
          subst hpr
          exact offer_tagsOk cfg r.obj _ st rfl h

theorem drain_tags (st : StreamState) (h : TagsOk st) :
    ∀ b ∈ (drain st).flushed, ∀ s ∈ b.2, s.tags = ([] : List String) := by
  unfold drain
  split
  next =>
    intro b hb s hsm
    simp only [List.mem_append, List.mem_singleton] at hb
    rcases hb with hb | hb
    · exact h.1 b hb s hsm
    · subst hb
      exact h.2 s hsm
  next => exact h.1

theorem rewriteStatements_tags (stmts : List Statement)
    (hashes : List String) (h : ∀ s ∈ stmts, s.tags = ([] : List String)) :
    ∀ s ∈ rewriteStatements stmts hashes, s.tags = ([] : List String) := by
  intro s hs
  unfold rewriteStatements at hs
  obtain ⟨⟨a, b⟩, hmem, rfl⟩ := List.mem_map.mp hs
  exact h a (List.of_mem_zip hmem).1

/-- The calls made by `publishBatch` are the store call alone, or the store
call followed by the publish call on the rewritten statements. -/
theorem publishBatch_calls (node : RemoteNode) (compound : Option Nat)
    (bodies : List Obj) (stmts : List Statement) :
    (publishBatch node compound bodies stmts).1 = [NetCall.putData bodies] ∨
    ∃ hashes, node.putData bodies = .ok hashes ∧
      (publishBatch node compound bodies stmts).1
        = [NetCall.putData bodies,
           NetCall.publish (rewriteStatements stmts hashes)] := by
  unfold publishBatch
  cases hp : node.putData bodies with
  | error e => exact Or.inl rfl
  | ok hashes =>
    by_cases hne : hashes.length ≠ stmts.length
    · left
      simp [hne]
    · right
      refine ⟨hashes, rfl, ?_⟩
      cases hpub : node.publish (rewriteStatements stmts hashes) <;>
        simp [hne, hpub]

theorem publishBatch_calls_tags (node : RemoteNode) (compound : Option Nat)
    (bodies : List Obj) (stmts : List Statement)
    (h : ∀ s ∈ stmts, s.tags = ([] : List String)) :
    ∀ c ∈ (publishBatch node compound bodies stmts).1,
      ∀ ss, c = NetCall.publish ss → ∀ s ∈ ss, s.tags = [] := by
  intro c hc ss hss s hs
  rcases publishBatch_calls node compound bodies stmts with
    hcalls | ⟨hashes, -, hcalls⟩
  · rw [hcalls] at hc
    rw [List.mem_singleton.mp hc] at hss
    exact NetCall.noConfusion hss
  · rw [hcalls] at hc
    rcases List.mem_cons.mp hc with hc | hc
    · rw [hc] at hss
      exact NetCall.noConfusion hss
    · rw [List.mem_singleton.mp hc] at hss
      injection hss with h1
      rw [← h1] at hs
      exact rewriteStatements_tags stmts hashes h s hs

/-- C10: every statement of every flushed batch carries an empty tags
list, and every statement handed to a publish network call still carries
an empty tags list (the storage rewrite touches only the object field). -/
theorem tags_always_empty (cfg : Config) (node : RemoteNode)
    (inputs : List JqRecord) :
    (∀ b ∈ (publishRun cfg node inputs).flushed, ∀ s ∈ b.2,
       s.tags = ([] : List String)) ∧
    (∀ c ∈ (publishRun cfg node inputs).calls, ∀ ss,
       c = NetCall.publish ss → ∀ s ∈ ss, s.tags = []) := by
  have hT : TagsOk (ingest cfg initState inputs).1 :=
    ingest_tagsOk cfg inputs initState
      ⟨by simp [initState], by simp [initState]⟩
  have hflush : ∀ b ∈ (finalStream cfg inputs).flushed, ∀ s ∈ b.2,
      s.tags = ([] : List String) := by
    rw [finalStream]
    split
    · exact hT.1
    · exact drain_tags _ hT
  refine ⟨?_, ?_⟩
  · rw [publishRun_flushed]
    exact hflush
  · rw [publishRun_calls]
    intro c hc ss hss s hs
    rw [List.mem_flatten] at hc
    obtain ⟨l, hl, hcl⟩ := hc
    rw [List.mem_map] at hl
    obtain ⟨pair, hpair, rfl⟩ := hl
    rw [runBatches, List.mem_map] at hpair
    obtain ⟨b, hb, rfl⟩ := hpair
    exact publishBatch_calls_tags node cfg.compound b.1 b.2
      (hflush b hb) c hcl ss hss s hs

theorem tags_always_empty_witness :
    Statement.tags ⟨.wrapped "sref" (plainObj "d1"), ["w1"], []⟩ = [] :=
  (tags_always_empty cfgB1 nodeOk [plainRec "w1" "d1"]).1
    ([plainObj "d1"], [⟨.wrapped "sref" (plainObj "d1"), ["w1"], []⟩])
    (by decide) ⟨.wrapped "sref" (plainObj "d1"), ["w1"], []⟩ (by decide)

theorem putData_no_remainder_flush_witness :
    ((putDataRun 2 [plainObj "1", plainObj "2", plainObj "3"]).1.flatten
        ++ (putDataRun 2 [plainObj "1", plainObj "2", plainObj "3"]).2
      = [plainObj "1", plainObj "2", plainObj "3"]) ∧
    (∀ b ∈ (putDataRun 2 [plainObj "1", plainObj "2", plainObj "3"]).1,
      b.length = 2) ∧
    (putDataRun 2 [plainObj "1", plainObj "2", plainObj "3"]).2 ≠ [] ∧
    (putDataRun 2 [plainObj "1", plainObj "2", plainObj "3"]).1.flatten
      ≠ [plainObj "1", plainObj "2", plainObj "3"] :=
  putData_no_remainder_flush 2 [plainObj "1", plainObj "2", plainObj "3"]
    (by decide) (by decide)

theorem flush_concat_eq_input_witness :
    ((((publishRun cfgStd nodeOk [plainRec "w1" "d1", plainRec "w2" "d2",
        plainRec "w3" "d3"]).flushed.map Prod.fst).flatten
       = [plainRec "w1" "d1", plainRec "w2" "d2",
          plainRec "w3" "d3"].map JqRecord.obj) ∧
    (∀ b ∈ (publishRun cfgStd nodeOk [plainRec "w1" "d1", plainRec "w2" "d2",
        plainRec "w3" "d3"]).flushed,
       0 < b.1.length ∧ b.1.length ≤ cfgStd.batchSize) ∧
    (∀ b ∈ (publishRun cfgStd nodeOk [plainRec "w1" "d1", plainRec "w2" "d2",
        plainRec "w3" "d3"]).flushed.dropLast,
       b.1.length = cfgStd.batchSize)) :=
  flush_concat_eq_input cfgStd nodeOk
    [plainRec "w1" "d1", plainRec "w2" "d2", plainRec "w3" "d3"]
    rfl (by decide) (by decide)

end Aleph
